import Mathlib

/-!
Verification development for the `bevy_voxel_world` mesh cache and chunk
lifecycle.  The Rust sources in `src/mesh_cache.rs` and `src/configuration.rs`
are shallowly embedded below:

* `Arc<Handle<Mesh>>` identities become `HandleId := Nat`; whether a handle
  still has at least one external strong owner (a chunk's `MeshRef` component)
  is modelled by an environment `alive : HandleId → Bool`.  The cache itself
  only ever holds weak references, so it contributes no ownership.
* `WeakValueHashMap<u64, Weak<Handle<Mesh>>>` becomes an association list
  `WeakMeshMap`; `insert` replaces the entry for the key, `get` upgrades the
  weak reference (returns the handle only while it is alive) and
  `remove_expired` drops every dead entry.
* `RwLock::try_write` is modelled by a boolean `writeAvailable` argument:
  `true` means the write lock was acquired, `false` that it was contended.
* `MeshCacheInsertBuffer` is the ordered list of pending `(fingerprint,
  handle)` pairs; `Vec::drain(..)` empties it front to back.
-/

namespace BevyVoxelWorld

abbrev Fingerprint := Nat

abbrev HandleId := Nat

/-- Liveness environment: `alive h = true` iff the `Arc<Handle<Mesh>>` with
identity `h` still has at least one strong owner outside the cache (some
chunk entity's `MeshRef`). -/
abbrev Alive := HandleId → Bool

/-- Embedding of `WeakValueHashMap<u64, Weak<Handle<Mesh>>>` (the backing map
of `MeshCache`) as an association list from fingerprints to handle ids. -/
abbrev WeakMeshMap := List (Fingerprint × HandleId)

/-- Embedding of `MeshCacheInsertBuffer<C>`: the ordered pending-insert
buffer `Vec<(u64, Arc<Handle<Mesh>>)>`. -/
abbrev MeshCacheInsertBuffer := List (Fingerprint × HandleId)

/-- `WeakValueHashMap::insert`: store `v` under `k`, replacing any previous
entry for `k`. -/
def insertWeak (m : WeakMeshMap) (k : Fingerprint) (v : HandleId) : WeakMeshMap :=
  (k, v) :: m.filter (fun p => !(p.1 == k))

/-- Raw lookup in the backing map, ignoring liveness: the handle id stored
under `k`, if any entry for `k` is present. -/
def lookupRaw (m : WeakMeshMap) (k : Fingerprint) : Option HandleId :=
  (m.find? (fun p => p.1 == k)).map Prod.snd

/-- `WeakValueHashMap::remove_expired`: drop every entry whose weak reference
no longer upgrades, i.e. whose handle has no remaining strong owner. -/
def removeExpired (alive : Alive) (m : WeakMeshMap) : WeakMeshMap :=
  m.filter (fun p => alive p.2)

/-- The merge loop of `MeshCache::apply_buffers`:
`for (voxels, mesh) in insert_buffer.drain(..) { map.insert(voxels, mesh); }`,
folded over the buffer front to back. -/
def mergeAll (m : WeakMeshMap) (buf : MeshCacheInsertBuffer) : WeakMeshMap :=
  buf.foldl (fun acc p => insertWeak acc p.1 p.2) m

/-- `MeshCache::apply_buffers`.  Returns the backing map and the insert
buffer after the call.  Mirrors `src/mesh_cache.rs` lines 26-37: an empty
buffer returns immediately; otherwise, if `try_write` succeeds
(`writeAvailable = true`) the buffer is drained into the map in order and
`remove_expired` runs; if the lock is contended nothing happens. -/
def apply_buffers (alive : Alive) (writeAvailable : Bool) (m : WeakMeshMap)
    (buf : MeshCacheInsertBuffer) : WeakMeshMap × MeshCacheInsertBuffer :=
  if buf.length = 0 then (m, buf)
  else if writeAvailable then (removeExpired alive (mergeAll m buf), [])
  else (m, buf)

/-- `MeshCache::get`: `self.map.read().get(voxels_hash)`.  The weak-table
`get` upgrades the stored weak reference, so it yields the handle only while
some strong owner keeps it alive. -/
def get (alive : Alive) (m : WeakMeshMap) (k : Fingerprint) : Option HandleId :=
  match lookupRaw m k with
  | some h => if alive h then some h else none
  | none => none

/- ### Helper lemmas about the embedded map operations -/

theorem lookupRaw_insertWeak_self (m : WeakMeshMap) (k : Fingerprint) (v : HandleId) :
    lookupRaw (insertWeak m k v) k = some v := by
  simp [lookupRaw, insertWeak]

theorem find?_filter_of_imp {α : Type} (l : List α) (p q : α → Bool)
    (himp : ∀ x, p x = true → q x = true) : (l.filter q).find? p = l.find? p := by
  induction l with
  | nil => rfl
  | cons a t ih =>
    by_cases hp : p a = true
    · rw [List.filter_cons_of_pos (himp a hp), List.find?_cons_of_pos _ hp,
        List.find?_cons_of_pos _ hp]
    · by_cases hqa : q a = true
      · rw [List.filter_cons_of_pos hqa, List.find?_cons_of_neg _ hp,
          List.find?_cons_of_neg _ hp]
        exact ih
      · rw [List.filter_cons_of_neg (by simpa using hqa), List.find?_cons_of_neg _ hp]
        exact ih

theorem lookupRaw_insertWeak_ne (m : WeakMeshMap) (k k' : Fingerprint) (v : HandleId)
    (hne : k' ≠ k) : lookupRaw (insertWeak m k v) k' = lookupRaw m k' := by
  unfold lookupRaw insertWeak
  rw [List.find?_cons_of_neg _ (by simp [Ne.symm hne]), find?_filter_of_imp]
  intro x hx
  have hx' : x.1 = k' := by simpa using hx
  simp [hx', hne]

theorem mem_insertWeak {m : WeakMeshMap} {k : Fingerprint} {v : HandleId}
    {q : Fingerprint × HandleId} (hq : q ∈ insertWeak m k v) : q = (k, v) ∨ q ∈ m := by
  simp only [insertWeak, List.mem_cons] at hq
  rcases hq with h | h
  · exact Or.inl h
  · exact Or.inr (List.mem_of_mem_filter h)

theorem mem_mergeAll {m : WeakMeshMap} {buf : MeshCacheInsertBuffer}
    {q : Fingerprint × HandleId} (hq : q ∈ mergeAll m buf) : q ∈ m ∨ q ∈ buf := by
  induction buf generalizing m with
  | nil => exact Or.inl hq
  | cons p t ih =>
    have := ih (m := insertWeak m p.1 p.2) hq
    rcases this with h | h
    · rcases mem_insertWeak h with h' | h'
      · right
        rw [h']
        exact List.mem_cons_self _ _
      · exact Or.inl h'
    · exact Or.inr (List.mem_cons_of_mem _ h)

theorem lookupRaw_eq_some_mem {m : WeakMeshMap} {k : Fingerprint} {h : HandleId}
    (hl : lookupRaw m k = some h) : (k, h) ∈ m := by
  simp only [lookupRaw, Option.map_eq_some'] at hl
  obtain ⟨pr, hpr, hsnd⟩ := hl
  have hmem := List.mem_of_find?_eq_some hpr
  have hkey := List.find?_some hpr
  have hpk : pr = (k, h) := by
    have h1 : pr.1 = k := by simpa using hkey
    cases pr
    simp_all
  rw [hpk] at hmem
  exact hmem

/-- Characterisation of a lookup after the merge loop: the last buffered pair
for `k` wins; if none was buffered for `k`, the original map answers. -/
theorem lookupRaw_mergeAll (buf : MeshCacheInsertBuffer) (m : WeakMeshMap) (k : Fingerprint) :
    lookupRaw (mergeAll m buf) k =
      match buf.reverse.find? (fun p => p.1 == k) with
      | some p => some p.2
      | none => lookupRaw m k := by
  induction buf generalizing m with
  | nil => simp [mergeAll]
  | cons q t ih =>
    have hfold : mergeAll m (q :: t) = mergeAll (insertWeak m q.1 q.2) t := rfl
    rw [hfold, ih, List.reverse_cons, List.find?_append]
    cases hf : t.reverse.find? (fun p => p.1 == k) with
    | some p => simp [hf]
    | none =>
      by_cases hq : q.1 = k
      · subst hq
        simp [hf, lookupRaw_insertWeak_self]
      · have hne : k ≠ q.1 := fun h => hq h.symm
        simp [hf, hq, lookupRaw_insertWeak_ne m q.1 k q.2 hne]

theorem find?_filter_keep {l : List (Fingerprint × HandleId)}
    {p q : Fingerprint × HandleId → Bool} {a : Fingerprint × HandleId}
    (hfind : l.find? p = some a) (hq : q a = true) : (l.filter q).find? p = some a := by
  induction l with
  | nil => simp at hfind
  | cons b t ih =>
    by_cases hpb : p b = true
    · rw [List.find?_cons_of_pos _ hpb] at hfind
      have hab : b = a := by simpa using hfind
      subst hab
      rw [List.filter_cons_of_pos hq, List.find?_cons_of_pos _ hpb]
    · rw [List.find?_cons_of_neg _ (by simpa using hpb)] at hfind
      by_cases hqb : q b = true
      · rw [List.filter_cons_of_pos hqb, List.find?_cons_of_neg _ (by simpa using hpb)]
        exact ih hfind
      · rw [List.filter_cons_of_neg (by simpa using hqb)]
        exact ih hfind

/- ### Claims about `MeshCache` -/

/-- C3: if the backing map's write lock is unavailable, `apply_buffers`
returns with both the backing map and the insert buffer unchanged; nothing
is dropped or partially merged, so the same inserts are retried later. -/
theorem apply_buffers_defers (alive : Alive) (m : WeakMeshMap)
    (buf : MeshCacheInsertBuffer) : apply_buffers alive false m buf = (m, buf) := by
  unfold apply_buffers
  split
  · rfl
  · rfl

/-- C5: calling `apply_buffers` with an empty insert buffer is a no-op: the
backing map and the buffer are returned unchanged, whatever the lock state. -/
theorem apply_buffers_empty_noop (alive : Alive) (writeAvailable : Bool)
    (m : WeakMeshMap) : apply_buffers alive writeAvailable m [] = (m, []) := by
  rfl

/-- C4: `get` returns `some h` exactly when the backing map holds an entry
for the fingerprint whose handle still has a live strong owner, with `h`
that handle; in every other case it returns `none`. -/
theorem get_live_iff (alive : Alive) (m : WeakMeshMap) (k : Fingerprint) (h : HandleId) :
    (get alive m k = some h ↔ lookupRaw m k = some h ∧ alive h = true) ∧
    (get alive m k = none ↔ ∀ h', lookupRaw m k = some h' → alive h' = false) := by
  cases hl : lookupRaw m k with
  | some hh =>
    have hg : get alive m k = if alive hh = true then some hh else none := by
      unfold get
      rw [hl]
    by_cases ha : alive hh = true
    · rw [hg, if_pos ha]
      refine ⟨⟨fun he => ?_, fun hp => ?_⟩, ⟨fun he => absurd he (by simp), fun hall => ?_⟩⟩
      · injection he with he
        subst he
        exact ⟨rfl, ha⟩
      · obtain ⟨he, _⟩ := hp
        injection he with he
        rw [he]
      · have hdead := hall hh rfl
        rw [ha] at hdead
        exact absurd hdead (by simp)
    · have ha' : alive hh = false := by
        cases hav : alive hh
        · rfl
        · exact absurd hav ha
      rw [hg, if_neg ha]
      refine ⟨⟨fun he => absurd he (by simp), fun hp => ?_⟩,
        ⟨fun _ h' he => ?_, fun _ => rfl⟩⟩
      · obtain ⟨he, hal⟩ := hp
        injection he with he
        subst he
        exact absurd hal ha
      · injection he with he
        subst he
        exact ha'
  | none =>
    have hg : get alive m k = none := by
      unfold get
      rw [hl]
    rw [hg]
    refine ⟨⟨fun he => absurd he (by simp), fun hp => ?_⟩,
      ⟨fun _ h' he => absurd he (by simp), fun _ => rfl⟩⟩
    obtain ⟨he, _⟩ := hp
    exact absurd he (by simp)

theorem get_some_imp_alive {alive : Alive} {m : WeakMeshMap} {k : Fingerprint}
    {h : HandleId} (hg : get alive m k = some h) : alive h = true := by
  cases hl : lookupRaw m k with
  | some hh =>
    have hgv : get alive m k = if alive hh = true then some hh else none := by
      unfold get
      rw [hl]
    rw [hgv] at hg
    by_cases ha : alive hh = true
    · rw [if_pos ha] at hg
      injection hg with hg
      subst hg
      exact ha
    · rw [if_neg ha] at hg
      exact absurd hg (by simp)
  | none =>
    have hgv : get alive m k = none := by
      unfold get
      rw [hl]
    rw [hgv] at hg
    exact absurd hg (by simp)

theorem get_eq_none_of_dead {alive : Alive} {m : WeakMeshMap} {k : Fingerprint}
    (hd : ∀ h, (k, h) ∈ m → alive h = false) : get alive m k = none := by
  cases hl : lookupRaw m k with
  | some hh =>
    have hgv : get alive m k = if alive hh = true then some hh else none := by
      unfold get
      rw [hl]
    rw [hgv, hd hh (lookupRaw_eq_some_mem hl)]
    simp
  | none =>
    unfold get
    rw [hl]

theorem get_of_lookupRaw_alive {alive : Alive} {m : WeakMeshMap} {k : Fingerprint}
    {h : HandleId} (hl : lookupRaw m k = some h) (ha : alive h = true) :
    get alive m k = some h := by
  have hgv : get alive m k = if alive h = true then some h else none := by
    unfold get
    rw [hl]
  rw [hgv, if_pos ha]

theorem apply_buffers_nonempty_eq (alive : Alive) (m : WeakMeshMap)
    (buf : MeshCacheInsertBuffer) (hne : buf ≠ []) :
    apply_buffers alive true m buf = (removeExpired alive (mergeAll m buf), []) := by
  unfold apply_buffers
  rw [if_neg (fun hl => hne (List.length_eq_zero.mp hl)), if_pos rfl]

theorem lookupRaw_removeExpired_keep {alive : Alive} {l : WeakMeshMap}
    {k : Fingerprint} {h : HandleId}
    (hl : lookupRaw l k = some h) (ha : alive h = true) :
    lookupRaw (removeExpired alive l) k = some h := by
  simp only [lookupRaw, Option.map_eq_some'] at hl ⊢
  obtain ⟨pr, hpr, hsnd⟩ := hl
  refine ⟨pr, ?_, hsnd⟩
  apply find?_filter_keep hpr
  rw [hsnd]
  exact ha

theorem buffered_key_lookup {m : WeakMeshMap} {buf : MeshCacheInsertBuffer}
    {k : Fingerprint} {h : HandleId} (hmem : (k, h) ∈ buf) :
    ∃ h', lookupRaw (mergeAll m buf) k = some h' ∧ (k, h') ∈ buf := by
  have hrev : (k, h) ∈ buf.reverse := List.mem_reverse.mpr hmem
  have hsome : (buf.reverse.find? (fun p => p.1 == k)).isSome := by
    rw [List.find?_isSome]
    exact ⟨(k, h), hrev, by simp⟩
  obtain ⟨pr, hpr⟩ := Option.isSome_iff_exists.mp hsome
  have hk : pr.1 = k := by simpa using List.find?_some hpr
  have hmem' : pr ∈ buf := List.mem_reverse.mp (List.mem_of_find?_eq_some hpr)
  refine ⟨pr.2, ?_, ?_⟩
  · rw [lookupRaw_mergeAll, hpr]
  · rw [← hk]
    exact hmem'

/-- C1: reclamation invariant.  If no chunk any longer holds a strong
reference to any handle recorded for fingerprint `k` (neither in the backing
map nor among the pending inserts), then after any `apply_buffers` call a
lookup for `k` returns `none`; moreover a lookup never returns a stale
handle: whenever `get` returns a handle, that handle is still alive. -/
theorem reclamation_invariant (alive : Alive) (writeAvailable : Bool)
    (m : WeakMeshMap) (buf : MeshCacheInsertBuffer) (k : Fingerprint)
    (hdead : ∀ h, (k, h) ∈ m ∨ (k, h) ∈ buf → alive h = false) :
    get alive (apply_buffers alive writeAvailable m buf).1 k = none ∧
    (∀ (m' : WeakMeshMap) (h : HandleId), get alive m' k = some h → alive h = true) := by
  have hsub : ∀ h, (k, h) ∈ (apply_buffers alive writeAvailable m buf).1 → alive h = false := by
    intro h hmem
    unfold apply_buffers at hmem
    split at hmem
    · exact hdead h (Or.inl hmem)
    · split at hmem
      · have hmerge : (k, h) ∈ mergeAll m buf := List.mem_of_mem_filter hmem
        exact hdead h (mem_mergeAll hmerge)
      · exact hdead h (Or.inl hmem)
  exact ⟨get_eq_none_of_dead hsub, fun m' h hg => get_some_imp_alive hg⟩

/-- C2: for a non-empty insert buffer, when `apply_buffers` acquires the
write lock it first merges every buffered pair into the backing map in
order, drains the buffer, and then reclaims: the result is exactly
`remove_expired` of the merged map, every surviving entry is alive, every
merged entry that is still alive survives reclamation, and every buffered
fingerprint is present in the merged map (bound to a buffered handle). -/
theorem apply_buffers_merge_then_reclaim (alive : Alive) (m : WeakMeshMap)
    (buf : MeshCacheInsertBuffer) (hne : buf ≠ []) :
    apply_buffers alive true m buf = (removeExpired alive (mergeAll m buf), []) ∧
    (∀ p, p ∈ (apply_buffers alive true m buf).1 → alive p.2 = true) ∧
    (∀ k h, lookupRaw (mergeAll m buf) k = some h → alive h = true →
      lookupRaw (apply_buffers alive true m buf).1 k = some h) ∧
    (∀ k h, (k, h) ∈ buf →
      ∃ h', lookupRaw (mergeAll m buf) k = some h' ∧ (k, h') ∈ buf) := by
  have heq := apply_buffers_nonempty_eq alive m buf hne
  refine ⟨heq, ?_, ?_, ?_⟩
  · intro p hp
    rw [heq] at hp
    exact (List.mem_filter.mp hp).2
  · intro k h hl ha
    rw [heq]
    exact lookupRaw_removeExpired_keep hl ha
  · intro k h hmem
    exact buffered_key_lookup hmem

/-- C9: when `apply_buffers` acquires the write lock on a non-empty buffer,
the buffer is drained into the backing map in buffer order and left empty;
among several buffered pairs with the same fingerprint the last-buffered
pair wins, so a subsequent `get` returns its handle (here `hlast` states
that `(k, h)` is the last pair buffered for fingerprint `k`). -/
theorem last_write_wins (alive : Alive) (m : WeakMeshMap)
    (buf : MeshCacheInsertBuffer) (k : Fingerprint) (h : HandleId)
    (hne : buf ≠ [])
    (hlast : buf.reverse.find? (fun p => p.1 == k) = some (k, h))
    (halive : alive h = true) :
    (apply_buffers alive true m buf).2 = [] ∧
    get alive (apply_buffers alive true m buf).1 k = some h := by
  have heq := apply_buffers_nonempty_eq alive m buf hne
  have hmerge : lookupRaw (mergeAll m buf) k = some h := by
    rw [lookupRaw_mergeAll, hlast]
  have hkept : lookupRaw (removeExpired alive (mergeAll m buf)) k = some h :=
    lookupRaw_removeExpired_keep hmerge halive
  rw [heq]
  exact ⟨rfl, get_of_lookupRaw_alive hkept halive⟩

/- ### Chunk lifecycle (spec §3, §4.4) -/

/-- Modelled from the spec: the live (non-Unspawned) states of `ChunkState`
(`src` lacks the lifecycle module; only `configuration.rs` and
`mesh_cache.rs` are available).  `Unspawned` is represented by absence of
the coordinate from the world's chunk list. -/
inductive ChunkState where
  | queuedForSpawn
  | computing
  | spawned
  | queuedForDespawn
deriving DecidableEq, Repr

/-- Integer 3-vector identifying a chunk's position in chunk-grid space. -/
abbrev ChunkCoord := Int × Int × Int

/-- Modelled from the spec: the set of live chunk entities, each holding a
coordinate and its current lifecycle state. -/
abbrev WorldChunks := List (ChunkCoord × ChunkState)

/-- The coordinates currently holding any live (non-Unspawned) state. -/
def liveCoords (w : WorldChunks) : List ChunkCoord :=
  w.map Prod.fst

/-- Update the state recorded for coordinate `c` (used by the in-place
lifecycle transitions). -/
def setState (w : WorldChunks) (c : ChunkCoord) (st : ChunkState) : WorldChunks :=
  w.map (fun p => if p.1 = c then (c, st) else p)

/-- Remove the chunk entity at coordinate `c` (the `QueuedForDespawn →
Unspawned` transition destroys the entity). -/
def removeChunk (w : WorldChunks) (c : ChunkCoord) : WorldChunks :=
  w.filter (fun p => !decide (p.1 = c))

/-- Modelled from the spec: the transition rules of the chunk lifecycle
state machine (§4.4).  Admission (`admit`) requires the coordinate not to be
in any non-Unspawned state already. -/
inductive Step : WorldChunks → WorldChunks → Prop where
  | admitSpawn (w : WorldChunks) (c : ChunkCoord) (h : c ∉ liveCoords w) :
      Step w ((c, ChunkState.queuedForSpawn) :: w)
  | dispatch (w : WorldChunks) (c : ChunkCoord)
      (h : (c, ChunkState.queuedForSpawn) ∈ w) :
      Step w (setState w c ChunkState.computing)
  | complete (w : WorldChunks) (c : ChunkCoord)
      (h : (c, ChunkState.computing) ∈ w) :
      Step w (setState w c ChunkState.spawned)
  | queueDespawn (w : WorldChunks) (c : ChunkCoord)
      (h : (c, ChunkState.spawned) ∈ w) :
      Step w (setState w c ChunkState.queuedForDespawn)
  | despawn (w : WorldChunks) (c : ChunkCoord)
      (h : (c, ChunkState.queuedForDespawn) ∈ w) :
      Step w (removeChunk w c)

/-- Modelled from the spec: the states of the world reachable from the
initial, empty world through lifecycle transitions. -/
inductive Reachable : WorldChunks → Prop where
  | init : Reachable []
  | step {w w' : WorldChunks} : Reachable w → Step w w' → Reachable w'

theorem liveCoords_setState (w : WorldChunks) (c : ChunkCoord) (st : ChunkState) :
    liveCoords (setState w c st) = liveCoords w := by
  unfold liveCoords setState
  rw [List.map_map]
  apply List.map_congr_left
  intro p _
  by_cases hp : p.1 = c
  · simp [hp]
  · simp [hp]

theorem nodup_step {w w' : WorldChunks} (hs : Step w w')
    (hn : (liveCoords w).Nodup) : (liveCoords w').Nodup := by
  cases hs with
  | admitSpawn c h =>
    rw [show liveCoords ((c, ChunkState.queuedForSpawn) :: w) = c :: liveCoords w from rfl]
    exact List.nodup_cons.mpr ⟨h, hn⟩
  | dispatch c h =>
    rw [liveCoords_setState]
    exact hn
  | complete c h =>
    rw [liveCoords_setState]
    exact hn
  | queueDespawn c h =>
    rw [liveCoords_setState]
    exact hn
  | despawn c h =>
    have hsub : List.Sublist (liveCoords (removeChunk w c)) (liveCoords w) :=
      List.Sublist.map Prod.fst (List.filter_sublist w)
    exact hn.sublist hsub

/-- C7: at-most-one-in-flight invariant.  In every world reachable by the
lifecycle state machine, each chunk coordinate occurs at most once among the
live (non-Unspawned) chunk entities, so no coordinate is ever computed
twice concurrently. -/
theorem at_most_one_in_flight (w : WorldChunks) (hr : Reachable w) :
    (liveCoords w).Nodup := by
  induction hr with
  | init => exact List.nodup_nil
  | step _ hs ih => exact nodup_step hs ih

/- ### Per-frame spawn admission (spec §4.3, `configuration.rs`) -/

/-- Default implementation of `VoxelWorldConfig::max_spawn_per_frame`
(`src/configuration.rs` lines 69-71). -/
def max_spawn_per_frame : Nat := 10000

/-- Modelled from the spec: the per-frame "still missing" check — the spawn
candidates that are not yet in any live state. -/
def stillMissing (existing : List ChunkCoord) (cands : List ChunkCoord) :
    List ChunkCoord :=
  cands.filter (fun c => !decide (c ∈ existing))

/-- Modelled from the spec: per-frame admission control — of the candidates
still missing, at most `cap = max_spawn_per_frame` are admitted to
`QueuedForSpawn` this frame; the rest stay pending. -/
def admitFrame (cap : Nat) (existing : List ChunkCoord) (cands : List ChunkCoord) :
    List ChunkCoord :=
  (stillMissing existing cands).take cap

/-- C8: admission bound.  In a single frame at most `cap` coordinates
transition `Unspawned → QueuedForSpawn` (with `max_spawn_per_frame`
defaulting to 10000), and an excess candidate that was not admitted and is
still missing remains in the next frame's "still missing" candidate set
rather than being dropped. -/
theorem admission_bound (cap : Nat) (existing cands : List ChunkCoord)
    (c : ChunkCoord) (hc : c ∈ cands)
    (hnotAdmitted : c ∉ admitFrame cap existing cands)
    (hmissing : c ∉ existing) :
    (admitFrame cap existing cands).length ≤ cap ∧
    c ∈ stillMissing (existing ++ admitFrame cap existing cands) cands ∧
    max_spawn_per_frame = 10000 := by
  refine ⟨?_, ?_, rfl⟩
  · unfold admitFrame
    rw [List.length_take]
    exact Nat.min_le_left _ _
  · unfold stillMissing
    rw [List.mem_filter]
    refine ⟨hc, ?_⟩
    simp only [Bool.not_eq_eq_eq_not, Bool.not_true, decide_eq_false_iff_not]
    rw [List.mem_append]
    rintro (h | h)
    · exact hmissing h
    · exact hnotAdmitted h

/- ### Worker-side cache check (spec §4.4, `Computing` transition) -/

/-- Modelled from the spec: the worker's finalisation step for a chunk whose
content hashes to `fp` (the chunk-computation module is not under `src`).
The worker checks the mesh cache first: on a live hit it reuses the cached
handle and registers no new geometry (second component `false`); otherwise
it finalises the freshly built handle (second component `true`). -/
def finalizeChunkMesh (alive : Alive) (m : WeakMeshMap) (fp : Fingerprint)
    (freshHandle : HandleId) : HandleId × Bool :=
  match get alive m fp with
  | some h => (h, false)
  | none => (freshHandle, true)

/-- C6: round-trip reuse.  While a cached entry for fingerprint `fp` is
still live, any chunk computation that hashes to `fp` — a re-spawn at the
same coordinate with unchanged oracle output, or a second chunk with
identical voxel content — obtains the identical cached handle and registers
no redundant geometry; in particular this holds for the map produced by
applying the first chunk's buffered insert `(fp, h1)`. -/
theorem round_trip_reuse (alive : Alive) (m0 m : WeakMeshMap)
    (fp : Fingerprint) (h1 freshHandle : HandleId)
    (halive : alive h1 = true)
    (hcached : get alive m fp = some h1) :
    finalizeChunkMesh alive m fp freshHandle = (h1, false) ∧
    finalizeChunkMesh alive (apply_buffers alive true m0 [(fp, h1)]).1 fp freshHandle
      = (h1, false) := by
  constructor
  · unfold finalizeChunkMesh
    rw [hcached]
  · have heq := apply_buffers_nonempty_eq alive m0 [(fp, h1)] (by simp)
    have hmerge : lookupRaw (mergeAll m0 [(fp, h1)]) fp = some h1 := by
      unfold mergeAll
      simpa using lookupRaw_insertWeak_self m0 fp h1
    have hkept := lookupRaw_removeExpired_keep hmerge halive
    have hget : get alive (apply_buffers alive true m0 [(fp, h1)]).1 fp = some h1 := by
      rw [heq]
      exact get_of_lookupRaw_alive hkept halive
    unfold finalizeChunkMesh
    rw [hget]

/- ### Face texture indices (`configuration.rs`) -/

/-- `FaceTextureIndex` from `src/configuration.rs` lines 11-19. -/
structure FaceTextureIndex where
  top : Nat
  left : Nat
  right : Nat
  front : Nat
  back : Nat
  bottom : Nat
deriving DecidableEq, Repr

/-- `impl From<[u32; 3]> for FaceTextureIndex` (`src/configuration.rs`
lines 139-151), documented as `[top, side, bottom]`; the arguments are
`value[0]`, `value[1]`, `value[2]` of the source array. -/
def faceTextureIndexFromTriple (value0 value1 value2 : Nat) : FaceTextureIndex :=
  { left := value1
    right := value1
    top := value0
    bottom := value1
    front := value1
    back := value2 }

/-- C10: on input `[1, 2, 3]` the conversion puts the side value `2` on
`bottom` and the bottom value `3` on `back`, contradicting the documented
`[top, side, bottom]` layout (which demands `bottom = 3` and `back = 2`):
the code wires `bottom` to `value[1]` and `back` to `value[2]`. -/
theorem from_triple_misassigns_bottom_and_back :
    faceTextureIndexFromTriple 1 2 3
      = { top := 1, left := 2, right := 2, front := 2, back := 3, bottom := 2 } ∧
    (faceTextureIndexFromTriple 1 2 3).bottom ≠ 3 ∧
    (faceTextureIndexFromTriple 1 2 3).back ≠ 2 := by
  refine ⟨rfl, ?_, ?_⟩
  · intro h
    simp [faceTextureIndexFromTriple] at h
  · intro h
    simp [faceTextureIndexFromTriple] at h

/- ### Concrete witnesses -/

/-- Witness for C1 at a concrete cache state: every handle is dead, so the
lookup after `apply_buffers` reports absence. -/
theorem reclamation_invariant_witness :
    get (fun _ => false) (apply_buffers (fun _ => false) true [(5, 7)] [(5, 8)]).1 5 = none ∧
    (∀ (m' : WeakMeshMap) (h : HandleId),
      get (fun _ => false) m' 5 = some h → (fun _ : HandleId => false) h = true) :=
  reclamation_invariant (fun _ => false) true [(5, 7)] [(5, 8)] 5 (fun _ _ => rfl)

/-- Witness for C2 at a concrete cache state with one dead pre-existing
entry and one live buffered insert. -/
theorem apply_buffers_merge_then_reclaim_witness :
    apply_buffers (fun h => h == 7) true [(1, 3)] [(2, 7)]
      = (removeExpired (fun h => h == 7) (mergeAll [(1, 3)] [(2, 7)]), []) ∧
    (∀ p, p ∈ (apply_buffers (fun h => h == 7) true [(1, 3)] [(2, 7)]).1 →
      (fun h : HandleId => h == 7) p.2 = true) ∧
    (∀ k h, lookupRaw (mergeAll [(1, 3)] [(2, 7)]) k = some h →
      (fun h : HandleId => h == 7) h = true →
      lookupRaw (apply_buffers (fun h => h == 7) true [(1, 3)] [(2, 7)]).1 k = some h) ∧
    (∀ k h, (k, h) ∈ ([(2, 7)] : MeshCacheInsertBuffer) →
      ∃ h', lookupRaw (mergeAll [(1, 3)] [(2, 7)]) k = some h' ∧
        (k, h') ∈ ([(2, 7)] : MeshCacheInsertBuffer)) :=
  apply_buffers_merge_then_reclaim (fun h => h == 7) [(1, 3)] [(2, 7)] (by simp)

/-- Witness for C9: two buffered pairs share fingerprint 4; the later pair
`(4, 2)` wins the merge and is returned by the subsequent lookup. -/
theorem last_write_wins_witness :
    (apply_buffers (fun _ => true) true [] [(4, 1), (4, 2)]).2 = [] ∧
    get (fun _ => true) (apply_buffers (fun _ => true) true [] [(4, 1), (4, 2)]).1 4 = some 2 :=
  last_write_wins (fun _ => true) [] [(4, 1), (4, 2)] 4 2 (by simp) (by decide) rfl

/-- Witness for C7: the world reached by admitting a single coordinate has
no duplicate live coordinate. -/
theorem at_most_one_in_flight_witness :
    (liveCoords [(((0 : Int), (0 : Int), (0 : Int)), ChunkState.queuedForSpawn)]).Nodup :=
  at_most_one_in_flight _
    (Reachable.step Reachable.init
      (Step.admitSpawn [] ((0 : Int), (0 : Int), (0 : Int)) (List.not_mem_nil _)))

/-- Witness for C8: with `cap = 1` and two missing candidates, exactly one
is admitted and the other remains in the next frame's pending set. -/
theorem admission_bound_witness :
    (admitFrame 1 [] [((0 : Int), (0 : Int), (0 : Int)), ((1 : Int), (0 : Int), (0 : Int))]).length ≤ 1 ∧
    ((1 : Int), (0 : Int), (0 : Int)) ∈
      stillMissing
        ([] ++ admitFrame 1 [] [((0 : Int), (0 : Int), (0 : Int)), ((1 : Int), (0 : Int), (0 : Int))])
        [((0 : Int), (0 : Int), (0 : Int)), ((1 : Int), (0 : Int), (0 : Int))] ∧
    max_spawn_per_frame = 10000 :=
  admission_bound 1 [] [((0 : Int), (0 : Int), (0 : Int)), ((1 : Int), (0 : Int), (0 : Int))]
    ((1 : Int), (0 : Int), (0 : Int)) (by decide) (by decide) (by decide)

/-- Witness for C6: fingerprint 5 is cached with live handle 3; a re-spawn
and a second identical chunk both reuse handle 3 and build nothing new. -/
theorem round_trip_reuse_witness :
    finalizeChunkMesh (fun h => h == 3) [(5, 3)] 5 9 = (3, false) ∧
    finalizeChunkMesh (fun h => h == 3) (apply_buffers (fun h => h == 3) true [] [(5, 3)]).1 5 9
      = (3, false) :=
  round_trip_reuse (fun h => h == 3) [] [(5, 3)] 5 3 9 rfl (by decide)
